import Mathlib

/-!
Verification of the VideoSuperResolution repository.

This file gives a shallow embedding of the two source files
`VSR/DataLoader/Dataset.py` and `VSRTorch/Models/Arch.py` and proves the
frozen claims about them.  Tensors are modelled at the shape level (a shape
is a `List Nat`), which is the level at which the space-to-dim operator's
"tensor-shape algebra" lives; fallible Python operations return
`Except String`.
-/

namespace VSR

/-- Python index normalisation: a negative index counts from the end of a
sequence of length `n`.  This is both the semantics of `shape[i]` for
`i < 0` and the explicit normalisation `x.dim() + d if d < 0 else d`
performed on `self.dims` in `SpaceToDim.forward`. -/
def pyNorm (n : Nat) (i : Int) : Int :=
  if i < 0 then (n : Int) + i else i

/-- Reading `l[i]` for a nonnegative Python index; IndexError when out of
range. -/
def pyGetN (l : List Nat) (i : Nat) : Except String Nat :=
  if i < l.length then Except.ok (l.getD i 0) else Except.error "IndexError"

/-- Writing `l[i] = v` for a nonnegative Python index. -/
def pySetN (l : List Nat) (i : Nat) (v : Nat) : Except String (List Nat) :=
  if i < l.length then Except.ok (l.set i v) else Except.error "IndexError"

/-- Reading `l[i]` with full Python indexing (a negative index wraps
around once). -/
def pyGetI (l : List Nat) (i : Int) : Except String Nat :=
  let j := pyNorm l.length i
  if 0 ≤ j ∧ j < (l.length : Int) then Except.ok (l.getD j.toNat 0)
  else Except.error "IndexError"

/-- Writing `l[i] = v` with full Python indexing. -/
def pySetI (l : List Nat) (i : Int) (v : Nat) : Except String (List Nat) :=
  let j := pyNorm l.length i
  if 0 ≤ j ∧ j < (l.length : Int) then Except.ok (l.set j.toNat v)
  else Except.error "IndexError"

/-- Python `list.insert` at a nonnegative position; positions past the end
clamp to an append, exactly as in Python. -/
def pyInsert (l : List α) (i : Nat) (v : α) : List α :=
  l.take i ++ v :: l.drop i

/-- Python floor division `a // f` on nonnegative ints;
ZeroDivisionError when `f = 0`. -/
def pyFloorDiv (a f : Nat) : Except String Nat :=
  if f = 0 then Except.error "ZeroDivisionError" else Except.ok (a / f)

/-- Shape-level model of `torch.Tensor.reshape`: the new shape is taken as
given (all entries here are explicit and nonnegative) and the element count
must be preserved. -/
def reshape (x newShape : List Nat) : Except String (List Nat) :=
  if x.prod = newShape.prod then Except.ok newShape
  else Except.error "RuntimeError: invalid reshape"

/-- The list `[0, 1, ..., n-1]` as integers (Python `range(n)`). -/
def intRange (n : Nat) : List Int :=
  (List.range n).map (fun i : Nat => (i : Int))

/-- Shape-level model of `torch.Tensor.permute`: the permutation must
mention every dimension exactly once (negative entries wrap); the
resulting shape is the permuted shape. -/
def permute (x : List Nat) (perm : List Int) : Except String (List Nat) :=
  let n := x.length
  let nperm := perm.map (pyNorm n)
  if perm.length = n ∧ (∀ j ∈ nperm, 0 ≤ j ∧ j < (n : Int)) ∧ nperm.Nodup then
    Except.ok (nperm.map (fun j => x.getD j.toNat 0))
  else Except.error "RuntimeError: invalid permute"

/-- The two index adjustments
`dim = self.dim if self.dim < dims[1] else self.dim + 1` and
`dim = dim if dim <= dims[0] else dim + 1` of `SpaceToDim.forward`. -/
def adjustDim (t bLo aHi : Int) : Int :=
  let dim := if t < bLo then t else t + 1
  if dim ≤ aHi then dim else dim + 1

/-- The permutation list of `SpaceToDim.forward`:
`perm = [dim, dims[1] + 1, dims[0] + 2]`, prefixed by
`[i for i in range(min(perm))]` and extended by
`(i for i in range(N) if i not in perm)`.  The extend generator's lazy
membership test against the growing `perm` agrees with the test against
the prefix, because the appended indices are strictly increasing. -/
def buildPerm (N : Nat) (u v w : Int) : List Int :=
  let perm1 := intRange (min u (min v w)).toNat ++ [u, v, w]
  perm1 ++ (intRange N).filter (fun z => decide (¬ z ∈ perm1))

/-- The message of the RuntimeError raised by `SpaceToDim.forward` when the
integrate dimension is a space dimension (the `\x27` is the apostrophe in
the source message). -/
def integrateMsg : String := "Integrate dimension can\x27t be space dimension!"

/-- The `SpaceToDim` module of `VSRTorch/Models/Arch.py`: constructor
arguments `scale_factor`, `dims` (default `(-2, -1)`) and `dim`
(default `0`). -/
structure SpaceToDim where
  scale_factor : Nat
  dims : Int × Int
  dim : Int

/-- `SpaceToDim.forward`, transcribed line by line at the shape level.
The list comprehension `[i for i in range(min(perm))]` is `intRange` of
`min(perm)` (empty for a negative minimum, as in Python), and
`perm.extend(i for i in range(x.dim()) if i not in perm)` appends, in
order, the indices not already present; the generator's lazy membership
test against the growing `perm` coincides with the test against the
three-element `perm` since the appended indices are strictly increasing. -/
def SpaceToDim.forward (m : SpaceToDim) (x : List Nat) : Except String (List Nat) :=
  let n := x.length
  let f := m.scale_factor
  let d0 := pyNorm n m.dims.1
  let d1 := pyNorm n m.dims.2
  let a := max d0.natAbs d1.natAbs
  let b := min d0.natAbs d1.natAbs
  if m.dim = (a : Int) ∨ m.dim = (b : Int) then
    Except.error integrateMsg
  else do
    let va ← pyGetN x a
    let qa ← pyFloorDiv va f
    let s1 ← pySetN x a qa
    let vb ← pyGetN s1 b
    let qb ← pyFloorDiv vb f
    let s2 ← pySetN s1 b qb
    let s3 := pyInsert s2 (a + 1) f
    let s4 := pyInsert s3 (b + 1) f
    let dim2 := adjustDim m.dim (b : Int) (a : Int)
    let x1 ← reshape x s4
    let x2 ← permute x1 (buildPerm x1.length dim2 ((b : Int) + 1) ((a : Int) + 2))
    let v0 ← pyGetI x m.dim
    let t1 ← pySetI x m.dim (v0 * f ^ 2)
    let w0 ← pyGetI t1 m.dims.1
    let q0 ← pyFloorDiv w0 f
    let t2 ← pySetI t1 m.dims.1 q0
    let w1 ← pyGetI t2 m.dims.2
    let q1 ← pyFloorDiv w1 f
    let t3 ← pySetI t2 m.dims.2 q1
    reshape x2 t3

/-- The `SpaceToDepth` module: its `body` is built as
`SpaceToDim(block_size, dim=1)`, with `dims` left at its default. -/
structure SpaceToDepth where
  body : SpaceToDim

/-- `SpaceToDepth.__init__`. -/
def SpaceToDepth.init (block_size : Nat) : SpaceToDepth :=
  ⟨⟨block_size, (-2, -1), 1⟩⟩

/-- `SpaceToDepth.forward` delegates to its body. -/
def SpaceToDepth.forward (m : SpaceToDepth) (x : List Nat) : Except String (List Nat) :=
  m.body.forward x

/-- The `SpaceToBatch` module: its `body` is built as
`SpaceToDim(block_size, dim=0)`. -/
structure SpaceToBatch where
  body : SpaceToDim

/-- `SpaceToBatch.__init__`. -/
def SpaceToBatch.init (block_size : Nat) : SpaceToBatch :=
  ⟨⟨block_size, (-2, -1), 0⟩⟩

/-- `SpaceToBatch.forward` delegates to its body. -/
def SpaceToBatch.forward (m : SpaceToBatch) (x : List Nat) : Except String (List Nat) :=
  m.body.forward x

/-- The stage factors produced by the `while scale > 1` loop in
`Upsample.__init__`: each iteration either appends the remaining `scale`
as the final stage and stops (when `scale % 2 == 1 or scale == 2`) or
appends a factor-2 stage and halves `scale`. -/
def Upsample.stage_factors (scale : Nat) : List Nat :=
  if h1 : scale > 1 then
    if scale % 2 = 1 ∨ scale = 2 then [scale]
    else 2 :: Upsample.stage_factors (scale / 2)
  else []
termination_by scale
decreasing_by omega

/-- The list `fl` built by the loop in `Rdb.forward`: it starts as
`[inputs]` and each iteration `i in range(depth)` appends
`conv_i(torch.cat(fl, dim=1))`.  The stored modules `conv_i` are the
opaque functions `conv i`, and `torch.cat` is the opaque `cat`. -/
def Rdb.fl (T : Type) (cat : List T → T) (conv : Nat → T → T)
    (depth : Nat) (inputs : T) : List T :=
  (List.range depth).foldl (fun fl i => fl ++ [conv i (cat fl)]) [inputs]

/-- `Rdb.forward`: `return fl[-1] * self.scaling + inputs`, with the
elementwise multiplication by `self.scaling` as the opaque `smul` and the
elementwise addition as the opaque `add` (`fl` is never empty, so the
`getD inputs` default of `fl[-1]` is never taken). -/
def Rdb.forward (T : Type) (add : T → T → T) (smul : T → T)
    (cat : List T → T) (conv : Nat → T → T) (depth : Nat) (inputs : T) : T :=
  add (smul ((Rdb.fl T cat conv depth inputs).getLast?.getD inputs)) inputs

/-- The claim side of C8, following the claim text: `f_0 = inputs` and
`f_{i+1} = conv_i` applied to the concatenation of `f_0` through `f_i`. -/
def Rdb.denseFeature (T : Type) (cat : List T → T) (conv : Nat → T → T)
    (inputs : T) : Nat → T
  | 0 => inputs
  | i + 1 =>
    conv i (cat ((List.range (i + 1)).attach.map
      (fun j => Rdb.denseFeature T cat conv inputs j.val)))
termination_by i => i
decreasing_by
  have := List.mem_range.mp j.property
  omega

/-- An `Except` computation that does not produce the integrate-dimension
RuntimeError. -/
def NoIntegrate {α : Type} (e : Except String α) : Prop :=
  e ≠ Except.error integrateMsg

/-- A model filesystem for `VSR/DataLoader/Dataset.py`: a path is its
list of components (`Path.parent` drops the last component, the
filesystem root is `[]`).  `exis` models `Path.exists`, `iterdir` models
`Path.iterdir`, `glob base rel` models `base.glob(rel)`, and `toPath`
models the `Path(...)` constructor applied to a configuration string. -/
structure FS where
  exis : List String → Bool
  iterdir : List String → List (List String)
  glob : List String → List String → List (List String)
  toPath : String → List String

/-- One run of the `while True` ancestor loop of
`_glob_absolute_pattern`, with `fuel` iterations available and an
`oracle` modelling `url_p.exists()`: `none` models the call raising
`OSError` (the `except` branch steps to the parent and `continue`s,
skipping the root check), `some b` a normal return.  The result is
`some url_p` when the loop breaks within `fuel` iterations. -/
def ancestorLoop (oracle : List String → Option Bool) :
    Nat → List String → Option (List String)
  | 0, _ => none
  | fuel + 1, p =>
    match oracle p with
    | none => ancestorLoop oracle fuel p.dropLast
    | some true => some p
    | some false =>
      if p = p.dropLast then some p else ancestorLoop oracle fuel p.dropLast

/-- `_glob_absolute_pattern(url)`: walk up from `url` to the first
existing ancestor (or the root), then either list that directory (when
the relative remainder is `.`, i.e. empty) or glob the remainder under
it.  `url.length + 1` iterations always suffice for a non-raising
`exists()` (`ancestorLoop_eq_deepest`), so the `none` fallback is
unreachable. -/
def _glob_absolute_pattern (fs : FS) (url : List String) :
    List (List String) :=
  match ancestorLoop (fun p => some (fs.exis p)) (url.length + 1) url with
  | some url_p =>
    let url_r := url.drop url_p.length
    if url_r = [] then fs.iterdir url_p else fs.glob url_p url_r
  | none => []

/-- Claim side of C3: the deepest existing ancestor of `url` — the
longest prefix of `url` (including `url` itself) that the filesystem
reports existing, defaulting to the root. -/
def deepestExistingAncestor (exis : List String → Bool) (url : List String) :
    List String :=
  ((((List.range (url.length + 1)).reverse).map (fun k => url.take k)).find?
    (fun pr => exis pr)).getD []

/-- Values stored in a `Dataset`'s argument dict `_args`: the string and
int defaults set by `__init__`, glob-result path lists stored by
`load_datasets`, and arbitrary JSON values copied from a `param` object
(the abstract type `V`). -/
inductive DVal (V : Type) where
  | vstr : String → DVal V
  | vint : Int → DVal V
  | vpaths : List (List String) → DVal V
  | vjson : V → DVal V

/-- The `Dataset` wrapper of `VSR/DataLoader/Dataset.py`: a dict of named
arguments (modelled as an ordered association list, as a Python dict with
unique keys). -/
structure Dataset (V : Type) where
  _args : List (String × DVal V)

/-- Python dict lookup in an association list (keys are unique, so the
first match is the binding). -/
def dictGet {β : Type} (l : List (String × β)) (k : String) : Option β :=
  match l with
  | [] => none
  | kv :: rest => if kv.1 = k then some kv.2 else dictGet rest k

/-- Python dict assignment `d[k] = v`: overwrite in place when the key
is present (dict keys are unique, so at most one binding matches),
otherwise append; insertion order is preserved either way. -/
def dictSet {β : Type} (l : List (String × β)) (k : String) (v : β) :
    List (String × β) :=
  match l with
  | [] => [(k, v)]
  | kv :: rest => if kv.1 = k then (k, v) :: rest else kv :: dictSet rest k v

/-- `Dataset.__init__(**kwargs)`: store the keyword arguments and set the
defaults `mode = 'pil-image1'` and `depth = 1` when those keys are absent
(when present, the assignment rewrites the existing value unchanged, as
in the source). -/
def Dataset.init {V : Type} (kwargs : List (String × DVal V)) : Dataset V :=
  let a1 := dictSet kwargs "mode"
    (match dictGet kwargs "mode" with
      | some v => v
      | none => DVal.vstr "pil-image1")
  let a2 := dictSet a1 "depth"
    (match dictGet a1 "depth" with
      | some v => v
      | none => DVal.vint 1)
  ⟨a2⟩

/-- `Dataset.__getattr__` — the fallback Python calls for names not found
by normal attribute lookup: return the stored value; raise
`ValueError(f"un{item}able")` for an unstored `train`, `val` or `test`;
return `None` for any other unstored name. -/
def Dataset.getattr {V : Type} (d : Dataset V) (item : String) :
    Except String (Option (DVal V)) :=
  match dictGet d._args item with
  | some v => Except.ok (some v)
  | none =>
    if item = "train" ∨ item = "val" ∨ item = "test" then
      Except.error ("un" ++ item ++ "able")
    else Except.ok none

/-- `Dataset.__setitem__`. -/
def Dataset.setitem {V : Type} (d : Dataset V) (k : String) (v : DVal V) :
    Dataset V :=
  ⟨dictSet d._args k v⟩

/-- One `Dataset` entry of the JSON config's "Dataset" object: the keys
with their pattern lists (each value already passed through `to_list`
from `VSR/Util/Utility.py`, which wraps a single string into a
one-element list), plus the optional `param` object.  JSON object keys
are unique, so `param` is kept as a separate field. -/
structure DSEntry (V : Type) where
  items : List (String × List String)
  param : Option (List (String × V))

/-- The JSON configuration seen by `load_datasets`: the "Path" table
mapping names to path strings, and the "Dataset" table. -/
structure Config (V : Type) where
  path : List (String × String)
  dataset : List (String × DSEntry V)

/-- The inner loop of `load_datasets` over the patterns `j` of one
`train`/`val`/`test` key: `all_set_path[j]` is glob-resolved, and on
`KeyError` (the name is not in the "Path" table) `j` itself is
glob-resolved; the matches are appended to the running sample list. -/
def collect_sets {V : Type} (fs : FS) (cfg : Config V)
    (pats : List String) : List (List String) :=
  pats.foldl (fun sets j =>
    match dictGet cfg.path j with
    | some pathStr => sets ++ _glob_absolute_pattern fs (fs.toPath pathStr)
    | none => sets ++ _glob_absolute_pattern fs (fs.toPath j)) []

/-- The body of the `load_datasets` loop for one entry of the "Dataset"
table: build a fresh `Dataset()`, store the glob-resolved sample list
under each of its `train`/`val`/`test` keys (other keys are skipped),
then set every `param` pair as an attribute. -/
def build_dataset {V : Type} (fs : FS) (cfg : Config V) (e : DSEntry V) :
    Dataset V :=
  let d1 := e.items.foldl (fun d iv =>
    if iv.1 = "train" ∨ iv.1 = "val" ∨ iv.1 = "test" then
      d.setitem iv.1 (DVal.vpaths (collect_sets fs cfg iv.2))
    else d) (Dataset.init ([] : List (String × DVal V)))
  match e.param with
  | some pd => pd.foldl (fun d kv => d.setitem kv.1 (DVal.vjson kv.2)) d1
  | none => d1

/-- `load_datasets`: one built `Dataset` per entry of the config's
"Dataset" object, keyed by the entry's name. -/
def load_datasets {V : Type} (fs : FS) (cfg : Config V) :
    List (String × Dataset V) :=
  cfg.dataset.map (fun nv => (nv.1, build_dataset fs cfg nv.2))

theorem Rdb.denseFeature_zero (T : Type) (cat : List T → T)
    (conv : Nat → T → T) (inputs : T) :
    Rdb.denseFeature T cat conv inputs 0 = inputs := by
  rw [Rdb.denseFeature.eq_def]

theorem Rdb.denseFeature_succ (T : Type) (cat : List T → T)
    (conv : Nat → T → T) (inputs : T) (i : Nat) :
    Rdb.denseFeature T cat conv inputs (i + 1) =
      conv i (cat ((List.range (i + 1)).map
        (Rdb.denseFeature T cat conv inputs))) := by
  rw [Rdb.denseFeature.eq_def]
  show conv i (cat ((List.range (i + 1)).attach.map
      (fun j => Rdb.denseFeature T cat conv inputs j.val))) = _
  rw [List.attach_map_val (List.range (i + 1))
    (Rdb.denseFeature T cat conv inputs)]

theorem Rdb.fl_eq_map_denseFeature (T : Type) (cat : List T → T)
    (conv : Nat → T → T) (depth : Nat) (inputs : T) :
    Rdb.fl T cat conv depth inputs =
      (List.range (depth + 1)).map (Rdb.denseFeature T cat conv inputs) := by
  induction depth with
  | zero =>
    rw [Rdb.fl]
    rw [List.range_succ, List.range_zero]
    simp only [List.range_zero, List.foldl_nil, List.nil_append, List.map_cons,
      List.map_nil, Rdb.denseFeature_zero]
  | succ d ih =>
    rw [Rdb.fl, List.range_succ, List.foldl_append]
    rw [Rdb.fl] at ih
    rw [ih]
    rw [List.range_succ (d + 1), List.map_append]
    simp only [List.foldl_cons, List.foldl_nil, List.map_cons, List.map_nil]
    rw [Rdb.denseFeature_succ]

/-- C8: for every input and opaque convolution layers, `Rdb.forward` with
depth `d` returns `f_d * scaling + inputs`, where `f_0 = inputs` and each
`f_{i+1}` is `conv_i` applied to the channel-wise concatenation of `f_0`
through `f_i`. -/
theorem rdb_forward_residual_dense (T : Type) (add : T → T → T) (smul : T → T)
    (cat : List T → T) (conv : Nat → T → T) (depth : Nat) (inputs : T) :
    Rdb.forward T add smul cat conv depth inputs =
      add (smul (Rdb.denseFeature T cat conv inputs depth)) inputs := by
  rw [Rdb.forward, Rdb.fl_eq_map_denseFeature]
  rw [List.range_succ, List.map_append]
  simp

/-- C6: `SpaceToDepth(b)` and `SpaceToBatch(b)` forward exactly as
`SpaceToDim(b, dims=(-2, -1), dim=1)` and `SpaceToDim(b, dims=(-2, -1),
dim=0)` respectively. -/
theorem space_to_depth_batch_specialise (b : Nat) (x : List Nat) :
    (SpaceToDepth.init b).forward x = SpaceToDim.forward ⟨b, (-2, -1), 1⟩ x ∧
    (SpaceToBatch.init b).forward x = SpaceToDim.forward ⟨b, (-2, -1), 0⟩ x :=
  ⟨rfl, rfl⟩

/-- C5: for every `scale >= 1`, the stage factors of `Upsample.__init__`
multiply to `scale`; every factor but possibly the last is 2; the last
factor is 2 or odd; and `scale = 1` yields no stages. -/
theorem upsample_stage_factors_decompose :
    ∀ scale : Nat, 1 ≤ scale →
      (Upsample.stage_factors scale).prod = scale ∧
      (∀ i, i + 1 < (Upsample.stage_factors scale).length →
        (Upsample.stage_factors scale).getD i 0 = 2) ∧
      (∀ l, (Upsample.stage_factors scale).getLast? = some l →
        l = 2 ∨ l % 2 = 1) ∧
      (scale = 1 → Upsample.stage_factors scale = []) := by
  intro scale
  induction scale using Nat.strong_induction_on with
  | _ n ih =>
    intro hn
    by_cases h1 : n > 1
    · by_cases h2 : n % 2 = 1 ∨ n = 2
      · rw [Upsample.stage_factors, dif_pos h1, if_pos h2]
        refine ⟨by simp, ?_, ?_, by omega⟩
        · intro i hi
          simp at hi
        · intro l hl
          simp at hl
          omega
      · have hrec := ih (n / 2) (by omega) (by omega)
        obtain ⟨hp, hmid, hlast, _⟩ := hrec
        rw [Upsample.stage_factors, dif_pos h1, if_neg h2]
        have hne : Upsample.stage_factors (n / 2) ≠ [] := by
          intro hemp
          rw [hemp] at hp
          simp at hp
          omega
        refine ⟨?_, ?_, ?_, by omega⟩
        · rw [List.prod_cons, hp]
          omega
        · intro i hi
          cases i with
          | zero => simp
          | succ j =>
            simp only [List.length_cons] at hi
            simpa using hmid j (by omega)
        · intro l hl
          cases hsf : Upsample.stage_factors (n / 2) with
          | nil => exact absurd hsf hne
          | cons c cs =>
            rw [hsf, List.getLast?_cons_cons] at hl
            exact hlast l (by rw [hsf]; exact hl)
    · have : n = 1 := by omega
      subst this
      rw [Upsample.stage_factors, dif_neg (by omega)]
      refine ⟨by simp, by simp, by simp, fun _ => rfl⟩

theorem error_ne_integrate {α : Type} (s : String) (h : s ≠ integrateMsg) :
    (Except.error s : Except String α) ≠ Except.error integrateMsg := by
  intro hh
  exact h (Except.error.inj hh)

theorem noIntegrate_bind {α β : Type} (e : Except String α)
    (f : α → Except String β) (he : NoIntegrate e)
    (hf : ∀ a, NoIntegrate (f a)) : NoIntegrate (e >>= f) := by
  cases e with
  | error s =>
    have hs : s ≠ integrateMsg := by
      intro hs
      exact he (by rw [hs])
    exact error_ne_integrate _ hs
  | ok a => exact hf a

theorem noIntegrate_pyGetN (l : List Nat) (i : Nat) :
    NoIntegrate (pyGetN l i) := by
  unfold NoIntegrate pyGetN
  split
  · exact fun hh => Except.noConfusion hh
  · exact error_ne_integrate _ (by decide)

theorem noIntegrate_pySetN (l : List Nat) (i v : Nat) :
    NoIntegrate (pySetN l i v) := by
  unfold NoIntegrate pySetN
  split
  · exact fun hh => Except.noConfusion hh
  · exact error_ne_integrate _ (by decide)

theorem noIntegrate_pyGetI (l : List Nat) (i : Int) :
    NoIntegrate (pyGetI l i) := by
  unfold NoIntegrate pyGetI
  dsimp only
  split
  · exact fun hh => Except.noConfusion hh
  · exact error_ne_integrate _ (by decide)

theorem noIntegrate_pySetI (l : List Nat) (i : Int) (v : Nat) :
    NoIntegrate (pySetI l i v) := by
  unfold NoIntegrate pySetI
  dsimp only
  split
  · exact fun hh => Except.noConfusion hh
  · exact error_ne_integrate _ (by decide)

theorem noIntegrate_pyFloorDiv (a f : Nat) : NoIntegrate (pyFloorDiv a f) := by
  unfold NoIntegrate pyFloorDiv
  split
  · exact error_ne_integrate _ (by decide)
  · exact fun hh => Except.noConfusion hh

theorem noIntegrate_reshape (x y : List Nat) : NoIntegrate (reshape x y) := by
  unfold NoIntegrate reshape
  split
  · exact fun hh => Except.noConfusion hh
  · exact error_ne_integrate _ (by decide)

theorem noIntegrate_permute (x : List Nat) (p : List Int) :
    NoIntegrate (permute x p) := by
  unfold NoIntegrate permute
  dsimp only
  split
  · exact fun hh => Except.noConfusion hh
  · exact error_ne_integrate _ (by decide)

set_option maxHeartbeats 2000000 in
/-- C9: `SpaceToDim.forward(x)` raises the RuntimeError "Integrate
dimension can\x27t be space dimension!" exactly when `dim` equals one of
the two space dimensions obtained by normalising negative `dims` entries
against the rank of `x`; the check precedes every reshape and permute in
the definition, so when it fires no tensor operation has been applied. -/
theorem space_to_dim_integrate_error_iff (m : SpaceToDim) (x : List Nat) :
    m.forward x = Except.error integrateMsg ↔
      (m.dim = ((max (pyNorm x.length m.dims.1).natAbs
          (pyNorm x.length m.dims.2).natAbs : Nat) : Int) ∨
        m.dim = ((min (pyNorm x.length m.dims.1).natAbs
          (pyNorm x.length m.dims.2).natAbs : Nat) : Int)) := by
  constructor
  · intro h
    by_contra hc
    simp only [SpaceToDim.forward] at h
    rw [if_neg hc] at h
    refine absurd h ?_
    repeat
      refine noIntegrate_bind _ _ (by
        first
        | exact noIntegrate_pyGetN _ _
        | exact noIntegrate_pyGetI _ _
        | exact noIntegrate_pySetN _ _ _
        | exact noIntegrate_pySetI _ _ _
        | exact noIntegrate_pyFloorDiv _ _
        | exact noIntegrate_reshape _ _
        | exact noIntegrate_permute _ _) fun y => ?_
    exact noIntegrate_reshape _ _
  · intro h
    simp only [SpaceToDim.forward]
    rw [if_pos h]

theorem ok_bind {α β : Type} (a : α) (f : α → Except String β) :
    (Except.ok a : Except String α) >>= f = f a := rfl

theorem getD_of_lt (l : List Nat) (j : Nat) (h : j < l.length) :
    l.getD j 0 = l[j] := by
  simp [List.getD_eq_getElem?_getD, List.getElem?_eq_getElem h]

theorem getD_set_ne (l : List Nat) (i j v : Nat) (h : i ≠ j) :
    (l.set i v).getD j 0 = l.getD j 0 := by
  simp [List.getD_eq_getElem?_getD, List.getElem?_set_ne h]

/-- Splitting the product of a list around position `j` gives a context
in which updating position `j` is multiplication. -/
theorem prod_set_decomp (l : List Nat) (j : Nat) (h : j < l.length) :
    ∃ A B, l.prod = A * l.getD j 0 * B ∧
      ∀ v, (l.set j v).prod = A * v * B := by
  refine ⟨(l.take j).prod, (l.drop (j + 1)).prod, ?_, ?_⟩
  · conv_lhs => rw [← List.prod_take_mul_prod_drop l j]
    rw [List.drop_eq_getElem_cons h, List.prod_cons, getD_of_lt l j h]
    ring
  · intro v
    rw [List.set_eq_take_cons_drop v h, List.prod_append, List.prod_cons]
    ring

theorem pyInsert_prod (l : List Nat) (i v : Nat) :
    (pyInsert l i v).prod = v * l.prod := by
  unfold pyInsert
  rw [List.prod_append, List.prod_cons]
  conv_rhs => rw [← List.prod_take_mul_prod_drop l i]
  ring

theorem pyInsert_length (l : List Nat) (i : Nat) (v : Nat) :
    (pyInsert l i v).length = l.length + 1 := by
  simp [pyInsert]
  omega

theorem mem_intRange (n : Nat) (j : Int) :
    j ∈ intRange n ↔ 0 ≤ j ∧ j < (n : Int) := by
  unfold intRange
  simp only [List.mem_map, List.mem_range]
  constructor
  · rintro ⟨i, hi, rfl⟩
    constructor <;> omega
  · rintro ⟨hj1, hj2⟩
    exact ⟨j.toNat, by omega, by omega⟩

theorem nodup_intRange (n : Nat) : (intRange n).Nodup := by
  unfold intRange
  refine List.Nodup.map ?_ (List.nodup_range n)
  intro i j hij
  simp only [] at hij
  exact_mod_cast hij

theorem map_getD_range (l : List Nat) :
    (List.range l.length).map (fun i => l.getD i 0) = l := by
  induction l with
  | nil => simp
  | cons a t ih =>
    rw [List.length_cons, List.range_succ_eq_map]
    simp only [List.map_cons, List.map_map]
    have hc : ((fun i => (a :: t).getD i 0) ∘ Nat.succ) = fun i => t.getD i 0 := by
      funext i
      rfl
    rw [hc, ih]
    rfl

/-- Appending to `l` the elements of `r` not already in `l` yields a
permutation of `r`, when `l` has no duplicates and lies inside the
duplicate-free `r`.  This is the shape of the `perm` list built by
`SpaceToDim.forward`. -/
theorem perm_append_filter_not_mem (l r : List Int) (hl : l.Nodup)
    (hr : r.Nodup) (hsub : ∀ z ∈ l, z ∈ r) :
    List.Perm (l ++ r.filter (fun z => decide (¬ z ∈ l))) r := by
  apply List.perm_of_nodup_nodup_toFinset_eq
  · refine hl.append (hr.filter _) ?_
    intro z hz hzf
    have hnot := List.of_mem_filter hzf
    rw [decide_eq_true_eq] at hnot
    exact hnot hz
  · exact hr
  · apply List.toFinset.ext
    intro z
    constructor
    · intro hz
      rcases List.mem_append.mp hz with h | h
      · exact hsub z h
      · exact (List.mem_filter.mp h).1
    · intro hz
      by_cases hzl : z ∈ l
      · exact List.mem_append.mpr (Or.inl hzl)
      · refine List.mem_append.mpr (Or.inr (List.mem_filter.mpr ⟨hz, ?_⟩))
        rw [decide_eq_true_eq]
        exact hzl

/-- When its argument is a permutation of `range(x.dim())`, `permute`
succeeds and preserves the element count. -/
theorem permute_perm_intRange (l : List Nat) (p : List Int)
    (h : List.Perm p (intRange l.length)) :
    permute l p = Except.ok (p.map (fun j => l.getD j.toNat 0)) ∧
      (p.map (fun j => l.getD j.toNat 0)).prod = l.prod := by
  have hmem : ∀ j ∈ p, 0 ≤ j ∧ j < (l.length : Int) := fun j hj =>
    (mem_intRange _ _).mp (h.mem_iff.mp hj)
  have hnd : p.Nodup := h.nodup_iff.mpr (nodup_intRange _)
  have hlen : p.length = l.length := by
    have hle := h.length_eq
    simpa [intRange] using hle
  have hid : p.map (pyNorm l.length) = p := by
    have hcg : p.map (pyNorm l.length) = p.map (fun z => z) :=
      List.map_congr_left (fun z hz => by
        have hz0 := (hmem z hz).1
        unfold pyNorm
        rw [if_neg (by omega)])
    rw [hcg, List.map_id']
  unfold permute
  dsimp only
  rw [hid]
  rw [if_pos ⟨hlen, hmem, hnd⟩]
  refine ⟨rfl, ?_⟩
  have h2 : List.Perm (p.map (fun j => l.getD j.toNat 0))
      ((intRange l.length).map (fun j => l.getD j.toNat 0)) := h.map _
  rw [h2.prod_eq]
  rw [intRange, List.map_map]
  have hc : ((fun j : Int => l.getD j.toNat 0) ∘ fun i : Nat => (i : Int)) =
      fun i : Nat => l.getD i 0 := by
    funext i
    rfl
  rw [hc, map_getD_range]

/-- The `perm` list of `SpaceToDim.forward` — the prefix
`range(min(perm))`, the three moved dimensions, and every other index in
order — is a permutation of `range(N)` when the three dimensions are
distinct indices below `N`. -/
theorem buildPerm_perm (N : Nat) (u v w : Int)
    (hu0 : 0 ≤ u) (huN : u < (N : Int)) (hv0 : 0 ≤ v) (hvN : v < (N : Int))
    (hw0 : 0 ≤ w) (hwN : w < (N : Int)) (huv : u ≠ v) (huw : u ≠ w)
    (hvw : v ≠ w) :
    List.Perm (buildPerm N u v w) (intRange N) := by
  unfold buildPerm
  dsimp only
  apply perm_append_filter_not_mem
  · refine List.Nodup.append (nodup_intRange _) ?_ ?_
    · simp only [List.nodup_cons, List.mem_cons, List.mem_singleton,
        List.not_mem_nil, not_false_iff, List.nodup_nil, and_true]
      constructor
      · intro hc
        rcases hc with hc | hc
        · exact huv hc
        · rcases hc with hc | hc
          · exact huw hc
          · exact hc
      · intro hc
        rcases hc with hc | hc
        · exact hvw hc
        · exact hc
    · intro z hz hz2
      rw [mem_intRange] at hz
      simp only [List.mem_cons, List.mem_singleton, List.not_mem_nil,
        or_false] at hz2
      rcases hz2 with rfl | rfl | rfl <;> omega
  · exact nodup_intRange N
  · intro z hz
    rw [mem_intRange]
    rcases List.mem_append.mp hz with h | h
    · rw [mem_intRange] at h
      constructor <;> omega
    · simp only [List.mem_cons, List.mem_singleton, List.not_mem_nil,
        or_false] at h
      rcases h with rfl | rfl | rfl
      · exact ⟨hu0, huN⟩
      · exact ⟨hv0, hvN⟩
      · exact ⟨hw0, hwN⟩

/-- The adjusted integrate dimension avoids the two inserted block
positions and moves by at most two. -/
theorem adjustDim_bounds (t bLo aHi : Int) (h0 : 0 ≤ t) (htb : t ≠ bLo)
    (hta : t ≠ aHi) (hba : bLo ≤ aHi) :
    0 ≤ adjustDim t bLo aHi ∧ adjustDim t bLo aHi ≤ t + 2 ∧
      adjustDim t bLo aHi ≠ bLo + 1 ∧ adjustDim t bLo aHi ≠ aHi + 2 := by
  unfold adjustDim
  dsimp only
  by_cases h1 : t < bLo
  · rw [if_pos h1]
    by_cases h2 : t ≤ aHi
    · rw [if_pos h2]
      omega
    · rw [if_neg h2]
      omega
  · rw [if_neg h1]
    by_cases h2 : t + 1 ≤ aHi
    · rw [if_pos h2]
      omega
    · rw [if_neg h2]
      omega

theorem pyNorm_natCast (n t : Nat) : pyNorm n (t : Int) = (t : Int) := by
  unfold pyNorm
  rw [if_neg (by omega)]

/-- Python indexing of `l` at `i` when `i` normalises to the in-range
nonnegative index `p`. -/
theorem pyGetI_norm (l : List Nat) (i : Int) (p : Nat)
    (hnorm : pyNorm l.length i = (p : Int)) (h : p < l.length) :
    pyGetI l i = Except.ok (l.getD p 0) := by
  unfold pyGetI
  dsimp only
  rw [hnorm]
  rw [if_pos (by constructor <;> omega)]
  rw [show ((p : Int)).toNat = p from by omega]

/-- Python index assignment on `l` at `i` when `i` normalises to the
in-range nonnegative index `p`. -/
theorem pySetI_norm (l : List Nat) (i : Int) (p v : Nat)
    (hnorm : pyNorm l.length i = (p : Int)) (h : p < l.length) :
    pySetI l i v = Except.ok (l.set p v) := by
  unfold pySetI
  dsimp only
  rw [hnorm]
  rw [if_pos (by constructor <;> omega)]
  rw [show ((p : Int)).toNat = p from by omega]

set_option maxHeartbeats 4000000 in
/-- C1: when the sizes of `x` at the two space dimensions (after
normalising negative `dims` against the rank) are divisible by
`scale_factor`, and the integrate dimension `dim` is a valid dimension
distinct from both space dimensions, `SpaceToDim.forward(x)` succeeds and
returns the shape of `x` with the size at `dim` multiplied by
`scale_factor ** 2` and the sizes at `dims[0]` and `dims[1]` each divided
by `scale_factor`. -/
theorem space_to_dim_forward_shape (m : SpaceToDim) (x : List Nat)
    (hf : 1 ≤ m.scale_factor)
    (h00 : 0 ≤ pyNorm x.length m.dims.1)
    (h01 : pyNorm x.length m.dims.1 < (x.length : Int))
    (h10 : 0 ≤ pyNorm x.length m.dims.2)
    (h11 : pyNorm x.length m.dims.2 < (x.length : Int))
    (hne : pyNorm x.length m.dims.1 ≠ pyNorm x.length m.dims.2)
    (ht0 : 0 ≤ m.dim) (ht1 : m.dim < (x.length : Int))
    (hta : m.dim ≠ pyNorm x.length m.dims.1)
    (htb : m.dim ≠ pyNorm x.length m.dims.2)
    (hdiv0 : m.scale_factor ∣ x.getD (pyNorm x.length m.dims.1).toNat 0)
    (hdiv1 : m.scale_factor ∣ x.getD (pyNorm x.length m.dims.2).toNat 0) :
    m.forward x = Except.ok
      (((x.set m.dim.toNat (x.getD m.dim.toNat 0 * m.scale_factor ^ 2)).set
          (pyNorm x.length m.dims.1).toNat
          (x.getD (pyNorm x.length m.dims.1).toNat 0 / m.scale_factor)).set
        (pyNorm x.length m.dims.2).toNat
        (x.getD (pyNorm x.length m.dims.2).toNat 0 / m.scale_factor)) := by
  obtain ⟨p, hp⟩ : ∃ p : Nat, (p : Int) = pyNorm x.length m.dims.1 :=
    ⟨_, Int.toNat_of_nonneg h00⟩
  obtain ⟨q, hq⟩ : ∃ q : Nat, (q : Int) = pyNorm x.length m.dims.2 :=
    ⟨_, Int.toNat_of_nonneg h10⟩
  obtain ⟨t, htc⟩ : ∃ t : Nat, (t : Int) = m.dim :=
    ⟨_, Int.toNat_of_nonneg ht0⟩
  have hpn : p < x.length := by omega
  have hqn : q < x.length := by omega
  have htn : t < x.length := by omega
  have hpq : p ≠ q := by omega
  have htp : t ≠ p := by omega
  have htq : t ≠ q := by omega
  have hdivp : m.scale_factor ∣ x.getD p 0 := by
    rw [show p = (pyNorm x.length m.dims.1).toNat from by omega]
    exact hdiv0
  have hdivq : m.scale_factor ∣ x.getD q 0 := by
    rw [show q = (pyNorm x.length m.dims.2).toNat from by omega]
    exact hdiv1
  simp only [SpaceToDim.forward]
  rw [← hp, ← hq, ← htc]
  simp only [Int.natAbs_ofNat, Int.toNat_ofNat]
  set f := m.scale_factor with hfd
  set A := max p q with hA
  set B := min p q with hB
  have hBA : B < A := by omega
  have hAn : A < x.length := by omega
  have hBn : B < x.length := by omega
  have htA : t ≠ A := by omega
  have htB : t ≠ B := by omega
  have hABpq : (A = p ∧ B = q) ∨ (A = q ∧ B = p) := by omega
  have hdivA : f ∣ x.getD A 0 := by
    rcases hABpq with ⟨h1, h2⟩ | ⟨h1, h2⟩
    · rw [h1]
      exact hdivp
    · rw [h1]
      exact hdivq
  have hdivB : f ∣ x.getD B 0 := by
    rcases hABpq with ⟨h1, h2⟩ | ⟨h1, h2⟩
    · rw [h2]
      exact hdivq
    · rw [h2]
      exact hdivp
  have hc : ¬((t : Int) = (A : Int) ∨ (t : Int) = (B : Int)) := by
    rintro (h | h) <;> omega
  rw [if_neg hc]
  have e1 : pyGetN x A = Except.ok (x.getD A 0) := by
    unfold pyGetN
    rw [if_pos hAn]
  have e2 : pyFloorDiv (x.getD A 0) f = Except.ok (x.getD A 0 / f) := by
    unfold pyFloorDiv
    rw [if_neg (by omega)]
  have e3 : pySetN x A (x.getD A 0 / f) =
      Except.ok (x.set A (x.getD A 0 / f)) := by
    unfold pySetN
    rw [if_pos hAn]
  have hS1len : (x.set A (x.getD A 0 / f)).length = x.length := by simp
  have hS1B : (x.set A (x.getD A 0 / f)).getD B 0 = x.getD B 0 :=
    getD_set_ne x A B _ (by omega)
  have e4 : pyGetN (x.set A (x.getD A 0 / f)) B = Except.ok (x.getD B 0) := by
    unfold pyGetN
    rw [if_pos (by omega), hS1B]
  have e5 : pyFloorDiv (x.getD B 0) f = Except.ok (x.getD B 0 / f) := by
    unfold pyFloorDiv
    rw [if_neg (by omega)]
  have e6 : pySetN (x.set A (x.getD A 0 / f)) B (x.getD B 0 / f) =
      Except.ok ((x.set A (x.getD A 0 / f)).set B (x.getD B 0 / f)) := by
    unfold pySetN
    rw [if_pos (by omega)]
  have hprodS1 : (x.set A (x.getD A 0 / f)).prod * f = x.prod := by
    obtain ⟨C, D2, hx1, hset1⟩ := prod_set_decomp x A hAn
    rw [hset1, hx1]
    have hdc : x.getD A 0 / f * f = x.getD A 0 := Nat.div_mul_cancel hdivA
    calc C * (x.getD A 0 / f) * D2 * f = C * (x.getD A 0 / f * f) * D2 := by
          ring
      _ = C * x.getD A 0 * D2 := by rw [hdc]
  have hprodS2 :
      ((x.set A (x.getD A 0 / f)).set B (x.getD B 0 / f)).prod * f =
        (x.set A (x.getD A 0 / f)).prod := by
    obtain ⟨C, D2, hx1, hset1⟩ :=
      prod_set_decomp (x.set A (x.getD A 0 / f)) B (by omega)
    rw [hset1, hx1, hS1B]
    have hdc : x.getD B 0 / f * f = x.getD B 0 := Nat.div_mul_cancel hdivB
    calc C * (x.getD B 0 / f) * D2 * f = C * (x.getD B 0 / f * f) * D2 := by
          ring
      _ = C * x.getD B 0 * D2 := by rw [hdc]
  have hprodS4 :
      (pyInsert (pyInsert ((x.set A (x.getD A 0 / f)).set B (x.getD B 0 / f))
        (A + 1) f) (B + 1) f).prod = x.prod := by
    rw [pyInsert_prod, pyInsert_prod]
    calc f * (f * ((x.set A (x.getD A 0 / f)).set B (x.getD B 0 / f)).prod)
        = ((x.set A (x.getD A 0 / f)).set B (x.getD B 0 / f)).prod * f * f := by
          ring
      _ = (x.set A (x.getD A 0 / f)).prod * f := by rw [hprodS2]
      _ = x.prod := hprodS1
  have e7 : reshape x (pyInsert (pyInsert ((x.set A (x.getD A 0 / f)).set B
      (x.getD B 0 / f)) (A + 1) f) (B + 1) f) =
      Except.ok (pyInsert (pyInsert ((x.set A (x.getD A 0 / f)).set B
        (x.getD B 0 / f)) (A + 1) f) (B + 1) f) := by
    unfold reshape
    rw [if_pos hprodS4.symm]
  have hS4len : (pyInsert (pyInsert ((x.set A (x.getD A 0 / f)).set B
      (x.getD B 0 / f)) (A + 1) f) (B + 1) f).length = x.length + 1 + 1 := by
    rw [pyInsert_length, pyInsert_length]
    simp
  obtain ⟨hD0, hD2, hDv, hDw⟩ :=
    adjustDim_bounds (t : Int) (B : Int) (A : Int) (by omega) (by omega)
      (by omega) (by omega)
  have hperm : List.Perm
      (buildPerm (x.length + 1 + 1) (adjustDim (t : Int) (B : Int) (A : Int))
        ((B : Int) + 1) ((A : Int) + 2))
      (intRange (x.length + 1 + 1)) := by
    apply buildPerm_perm <;> omega
  obtain ⟨Y, hY1, hY2⟩ :
      ∃ Y, permute (pyInsert (pyInsert ((x.set A (x.getD A 0 / f)).set B
          (x.getD B 0 / f)) (A + 1) f) (B + 1) f)
          (buildPerm (x.length + 1 + 1)
            (adjustDim (t : Int) (B : Int) (A : Int)) ((B : Int) + 1)
            ((A : Int) + 2)) = Except.ok Y ∧
        Y.prod = (pyInsert (pyInsert ((x.set A (x.getD A 0 / f)).set B
          (x.getD B 0 / f)) (A + 1) f) (B + 1) f).prod := by
    have hpermOK := permute_perm_intRange
      (pyInsert (pyInsert ((x.set A (x.getD A 0 / f)).set B
        (x.getD B 0 / f)) (A + 1) f) (B + 1) f)
      (buildPerm (x.length + 1 + 1)
        (adjustDim (t : Int) (B : Int) (A : Int)) ((B : Int) + 1)
        ((A : Int) + 2))
      (by rw [hS4len]; exact hperm)
    exact ⟨_, hpermOK.1, hpermOK.2⟩
  have hT1len : (x.set t (x.getD t 0 * f ^ 2)).length = x.length := by simp
  have e9 : pyGetI x (t : Int) = Except.ok (x.getD t 0) :=
    pyGetI_norm x _ t (pyNorm_natCast _ _) htn
  have e10 : pySetI x (t : Int) (x.getD t 0 * f ^ 2) =
      Except.ok (x.set t (x.getD t 0 * f ^ 2)) :=
    pySetI_norm x _ t _ (pyNorm_natCast _ _) htn
  have hT1p : (x.set t (x.getD t 0 * f ^ 2)).getD p 0 = x.getD p 0 :=
    getD_set_ne x t p _ htp
  have e11 : pyGetI (x.set t (x.getD t 0 * f ^ 2)) m.dims.1 =
      Except.ok (x.getD p 0) := by
    rw [pyGetI_norm (x.set t (x.getD t 0 * f ^ 2)) m.dims.1 p
      (by rw [hT1len, ← hp]) (by omega), hT1p]
  have e12 : pyFloorDiv (x.getD p 0) f = Except.ok (x.getD p 0 / f) := by
    unfold pyFloorDiv
    rw [if_neg (by omega)]
  have e13 : pySetI (x.set t (x.getD t 0 * f ^ 2)) m.dims.1
      (x.getD p 0 / f) = Except.ok ((x.set t (x.getD t 0 * f ^ 2)).set p
        (x.getD p 0 / f)) :=
    pySetI_norm (x.set t (x.getD t 0 * f ^ 2)) m.dims.1 p _
      (by rw [hT1len, ← hp]) (by omega)
  have hT2len : ((x.set t (x.getD t 0 * f ^ 2)).set p
      (x.getD p 0 / f)).length = x.length := by simp
  have hT2q : ((x.set t (x.getD t 0 * f ^ 2)).set p
      (x.getD p 0 / f)).getD q 0 = x.getD q 0 := by
    rw [getD_set_ne _ _ _ _ hpq, getD_set_ne _ _ _ _ htq]
  have e14 : pyGetI ((x.set t (x.getD t 0 * f ^ 2)).set p
      (x.getD p 0 / f)) m.dims.2 = Except.ok (x.getD q 0) := by
    rw [pyGetI_norm ((x.set t (x.getD t 0 * f ^ 2)).set p (x.getD p 0 / f))
      m.dims.2 q (by rw [hT2len, ← hq]) (by omega), hT2q]
  have e15 : pyFloorDiv (x.getD q 0) f = Except.ok (x.getD q 0 / f) := by
    unfold pyFloorDiv
    rw [if_neg (by omega)]
  have e16 : pySetI ((x.set t (x.getD t 0 * f ^ 2)).set p
      (x.getD p 0 / f)) m.dims.2 (x.getD q 0 / f) =
      Except.ok (((x.set t (x.getD t 0 * f ^ 2)).set p
        (x.getD p 0 / f)).set q (x.getD q 0 / f)) :=
    pySetI_norm ((x.set t (x.getD t 0 * f ^ 2)).set p (x.getD p 0 / f))
      m.dims.2 q _ (by rw [hT2len, ← hq]) (by omega)
  have hprodT1 : (x.set t (x.getD t 0 * f ^ 2)).prod = x.prod * f ^ 2 := by
    obtain ⟨C, D2, hx1, hset1⟩ := prod_set_decomp x t htn
    rw [hset1, hx1]
    ring
  have hprodT2 : ((x.set t (x.getD t 0 * f ^ 2)).set p
      (x.getD p 0 / f)).prod * f = (x.set t (x.getD t 0 * f ^ 2)).prod := by
    obtain ⟨C, D2, hx1, hset1⟩ :=
      prod_set_decomp (x.set t (x.getD t 0 * f ^ 2)) p (by omega)
    rw [hset1, hx1, hT1p]
    have hdc : x.getD p 0 / f * f = x.getD p 0 := Nat.div_mul_cancel hdivp
    calc C * (x.getD p 0 / f) * D2 * f = C * (x.getD p 0 / f * f) * D2 := by
          ring
      _ = C * x.getD p 0 * D2 := by rw [hdc]
  have hprodT3 : (((x.set t (x.getD t 0 * f ^ 2)).set p
      (x.getD p 0 / f)).set q (x.getD q 0 / f)).prod * f =
      ((x.set t (x.getD t 0 * f ^ 2)).set p (x.getD p 0 / f)).prod := by
    obtain ⟨C, D2, hx1, hset1⟩ := prod_set_decomp
      ((x.set t (x.getD t 0 * f ^ 2)).set p (x.getD p 0 / f)) q (by omega)
    rw [hset1, hx1, hT2q]
    have hdc : x.getD q 0 / f * f = x.getD q 0 := Nat.div_mul_cancel hdivq
    calc C * (x.getD q 0 / f) * D2 * f = C * (x.getD q 0 / f * f) * D2 := by
          ring
      _ = C * x.getD q 0 * D2 := by rw [hdc]
  have hprodT3x : (((x.set t (x.getD t 0 * f ^ 2)).set p
      (x.getD p 0 / f)).set q (x.getD q 0 / f)).prod = x.prod := by
    have hff : 0 < f * f := Nat.mul_pos (by omega) (by omega)
    apply Nat.eq_of_mul_eq_mul_right hff
    calc (((x.set t (x.getD t 0 * f ^ 2)).set p (x.getD p 0 / f)).set q
          (x.getD q 0 / f)).prod * (f * f)
        = (((x.set t (x.getD t 0 * f ^ 2)).set p (x.getD p 0 / f)).set q
          (x.getD q 0 / f)).prod * f * f := by ring
      _ = ((x.set t (x.getD t 0 * f ^ 2)).set p (x.getD p 0 / f)).prod * f :=
          by rw [hprodT3]
      _ = (x.set t (x.getD t 0 * f ^ 2)).prod := hprodT2
      _ = x.prod * f ^ 2 := hprodT1
      _ = x.prod * (f * f) := by ring
  have e17 : reshape Y (((x.set t (x.getD t 0 * f ^ 2)).set p
      (x.getD p 0 / f)).set q (x.getD q 0 / f)) =
      Except.ok (((x.set t (x.getD t 0 * f ^ 2)).set p
        (x.getD p 0 / f)).set q (x.getD q 0 / f)) := by
    unfold reshape
    rw [if_pos (show Y.prod = _ from by rw [hY2, hprodS4, hprodT3x])]
  simp only [e1, e2, e3, e4, e5, e6, e7, hS4len, hY1, e9, e10, e11, e12, e13,
    e14, e15, e16, e17, ok_bind]

/-- Witness for C1: a 2x space-to-depth step on shape `[1, 3, 4, 6]`
yields shape `[1, 12, 2, 3]`. -/
theorem space_to_dim_forward_shape_witness :
    SpaceToDim.forward ⟨2, (-2, -1), 1⟩ [1, 3, 4, 6] =
      Except.ok [1, 12, 2, 3] := by
  have h := space_to_dim_forward_shape ⟨2, (-2, -1), 1⟩ [1, 3, 4, 6]
    (by decide) (by decide) (by decide) (by decide) (by decide) (by decide)
    (by decide) (by decide) (by decide) (by decide) (by decide) (by decide)
  rw [h]
  rfl

/-- Witness for C5: scale 12 decomposes into stages multiplying to 12. -/
theorem upsample_stage_factors_decompose_witness :
    1 ≤ 12 ∧ (Upsample.stage_factors 12).prod = 12 :=
  ⟨by decide, (upsample_stage_factors_decompose 12 (by decide)).1⟩

theorem deepest_nil (exis : List String → Bool) :
    deepestExistingAncestor exis [] = [] := by
  unfold deepestExistingAncestor
  rw [show List.range (List.length ([] : List String) + 1) = [0] from by
    rw [List.length_nil, List.range_succ, List.range_zero, List.nil_append]]
  simp only [List.reverse_cons, List.reverse_nil, List.nil_append,
    List.map_cons, List.map_nil, List.take_nil]
  cases hex : exis []
  · rw [List.find?_cons_of_neg _ (by simp [hex])]
    rfl
  · rw [List.find?_cons_of_pos _ (by simp [hex])]
    rfl

theorem deepest_concat (exis : List String → Bool) (l : List String)
    (a : String) :
    deepestExistingAncestor exis (l ++ [a]) =
      if exis (l ++ [a]) then l ++ [a]
      else deepestExistingAncestor exis l := by
  unfold deepestExistingAncestor
  rw [show (l ++ [a]).length + 1 = (l.length + 1) + 1 from by simp]
  rw [List.range_succ, List.reverse_append]
  simp only [List.reverse_cons, List.reverse_nil, List.nil_append,
    List.singleton_append, List.map_cons]
  rw [show (l ++ [a]).take (l.length + 1) = l ++ [a] from by
    rw [show l.length + 1 = (l ++ [a]).length from by simp, List.take_length]]
  cases hex : exis (l ++ [a])
  · rw [List.find?_cons_of_neg _ (by simp [hex])]
    have hmap : (((List.range (l.length + 1)).reverse).map
        (fun k => (l ++ [a]).take k)) =
        (((List.range (l.length + 1)).reverse).map (fun k => l.take k)) :=
      List.map_congr_left (fun k hk => by
        rw [List.mem_reverse, List.mem_range] at hk
        exact List.take_append_of_le_length (by omega))
    rw [hmap]
    simp [hex]
  · rw [List.find?_cons_of_pos _ (by simp [hex])]
    simp [hex]

theorem deepest_of_exis (exis : List String → Bool) (url : List String)
    (hex : exis url = true) : deepestExistingAncestor exis url = url := by
  induction url using List.reverseRecOn with
  | nil => exact deepest_nil exis
  | append_singleton l a ih => rw [deepest_concat, if_pos hex]

theorem deepest_length_le (exis : List String → Bool) (url : List String) :
    (deepestExistingAncestor exis url).length ≤ url.length := by
  induction url using List.reverseRecOn with
  | nil =>
    rw [deepest_nil]
  | append_singleton l a ih =>
    rw [deepest_concat]
    by_cases hex : exis (l ++ [a]) = true
    · rw [if_pos hex]
    · rw [if_neg hex]
      have hlen : (l ++ [a]).length = l.length + 1 := by simp
      omega

/-- With a non-raising `exists()` and an existing root, the ancestor
loop breaks at the deepest existing ancestor within `url.length + 1`
iterations. -/
theorem ancestorLoop_eq_deepest (exis : List String → Bool)
    (url : List String) :
    ∀ fuel, url.length < fuel → exis [] = true →
      ancestorLoop (fun p => some (exis p)) fuel url =
        some (deepestExistingAncestor exis url) := by
  induction url using List.reverseRecOn with
  | nil =>
    intro fuel hfuel hroot
    cases fuel with
    | zero => omega
    | succ n =>
      simp only [ancestorLoop]
      rw [hroot, deepest_nil]
  | append_singleton l a ih =>
    intro fuel hfuel hroot
    cases fuel with
    | zero =>
      have hlen : (l ++ [a]).length = l.length + 1 := by simp
      omega
    | succ n =>
      simp only [ancestorLoop]
      cases hex : exis (l ++ [a])
      · dsimp only
        rw [List.dropLast_concat]
        rw [if_neg (show ¬ l ++ [a] = l from by simp)]
        rw [ih n (by
          have hlen : (l ++ [a]).length = l.length + 1 := by simp
          omega) hroot]
        rw [deepest_concat, if_neg (by simp [hex])]
      · dsimp only
        rw [deepest_concat, if_pos hex]

/-- Iterating the loop with an `exists()` that raises `OSError` at every
path never breaks when started at the root: the `except` branch skips
the root check. -/
theorem ancestorLoop_raise_root_stuck :
    ∀ fuel, ancestorLoop (fun _ => none) fuel ([] : List String) = none := by
  intro fuel
  induction fuel with
  | zero => rfl
  | succ n ih =>
    simp only [ancestorLoop]
    simpa using ih

/-- C4 counterexample: the ancestor loop does not terminate for every
behaviour of `exists()`: when `exists()` raises `OSError` at the
filesystem root (already for the starting path `[]`), the loop runs
forever, because the `except OSError` branch `continue`s past the
`url_p == url_p.parent` check. -/
theorem ancestor_loop_termination_counterexample :
    ¬ ∀ (oracle : List String → Option Bool) (p : List String),
        ∃ fuel, (ancestorLoop oracle fuel p).isSome = true := by
  intro h
  obtain ⟨fuel, hf⟩ := h (fun _ => none) []
  rw [ancestorLoop_raise_root_stuck fuel] at hf
  simp at hf

/-- C4 amended: the ancestor loop terminates — within `length + 1`
iterations — for every behaviour of `exists()` that does not raise
`OSError` at the filesystem root. -/
theorem ancestor_loop_terminates (oracle : List String → Option Bool)
    (p : List String) (hroot : oracle [] ≠ none) :
    ∃ fuel, (ancestorLoop oracle fuel p).isSome = true := by
  refine ⟨p.length + 1, ?_⟩
  induction p using List.reverseRecOn with
  | nil =>
    cases hor : oracle [] with
    | none => exact absurd hor hroot
    | some b =>
      cases b
      · simp [ancestorLoop, hor]
      · simp [ancestorLoop, hor]
  | append_singleton l a ih =>
    rw [show (l ++ [a]).length + 1 = l.length + 1 + 1 from by simp]
    simp only [ancestorLoop]
    cases hor : oracle (l ++ [a]) with
    | none =>
      dsimp only
      rw [List.dropLast_concat]
      exact ih
    | some b =>
      cases b
      · dsimp only
        rw [List.dropLast_concat]
        rw [if_neg (show ¬ l ++ [a] = l from by simp)]
        exact ih
      · simp

/-- Witness for the amended C4: a never-raising `exists()` that reports
nothing existing still lets the loop terminate (at the root). -/
theorem ancestor_loop_terminates_witness :
    ∃ fuel, (ancestorLoop (fun _ => some false) fuel ["a", "b"]).isSome
      = true :=
  ancestor_loop_terminates (fun _ => some false) ["a", "b"] (by simp)

/-- C3: `_glob_absolute_pattern(url)` resolves against the deepest
existing ancestor of `url`: when `url` itself exists (relative remainder
`.`) it returns the directory entries of `url`; otherwise it globs the
relative remainder of `url` under its deepest existing ancestor.  The
root is assumed to exist, as it does on a real filesystem. -/
theorem glob_absolute_pattern_resolves (fs : FS) (url : List String)
    (hroot : fs.exis [] = true) :
    _glob_absolute_pattern fs url =
      if fs.exis url = true then fs.iterdir url
      else fs.glob (deepestExistingAncestor fs.exis url)
        (url.drop (deepestExistingAncestor fs.exis url).length) := by
  unfold _glob_absolute_pattern
  rw [ancestorLoop_eq_deepest fs.exis url (url.length + 1) (by omega) hroot]
  dsimp only
  by_cases hex : fs.exis url = true
  · rw [if_pos hex, deepest_of_exis _ _ hex, List.drop_length, if_pos rfl]
  · rw [if_neg hex]
    have hne : url ≠ [] := fun he => hex (he ▸ hroot)
    have hlt : (deepestExistingAncestor fs.exis url).length < url.length := by
      rcases List.eq_nil_or_concat url with h | ⟨l, a, rfl⟩
      · exact absurd h hne
      · rw [List.concat_eq_append] at *
        rw [deepest_concat, if_neg hex]
        have hle := deepest_length_le fs.exis l
        have hlen : (l ++ [a]).length = l.length + 1 := by simp
        omega
    rw [if_neg (by
      intro hdrop
      rw [List.drop_eq_nil_iff] at hdrop
      omega)]

/-- Witness for C3: on a filesystem where only the root and `["data"]`
exist, globbing `["data", "raw"]` resolves under `["data"]`. -/
theorem glob_absolute_pattern_resolves_witness :
    _glob_absolute_pattern
      ⟨fun p => decide (p = [] ∨ p = ["data"]),
        fun p => [p ++ ["entry"]],
        fun base rel => [base ++ rel],
        fun s => [s]⟩ ["data", "raw"] = [["data", "raw"]] := by
  have h := glob_absolute_pattern_resolves
    ⟨fun p => decide (p = [] ∨ p = ["data"]),
      fun p => [p ++ ["entry"]],
      fun base rel => [base ++ rel],
      fun s => [s]⟩ ["data", "raw"] (by decide)
  rw [h]
  rfl

theorem dictGet_nil {β : Type} (k : String) :
    dictGet ([] : List (String × β)) k = none := rfl

theorem dictGet_cons {β : Type} (kv : String × β) (rest : List (String × β))
    (k : String) :
    dictGet (kv :: rest) k =
      if kv.1 = k then some kv.2 else dictGet rest k := rfl

theorem dictGet_dictSet_self {β : Type} (l : List (String × β)) (k : String)
    (v : β) : dictGet (dictSet l k v) k = some v := by
  induction l with
  | nil =>
    unfold dictSet dictGet
    rw [if_pos rfl]
  | cons kv rest ih =>
    unfold dictSet
    by_cases hk : kv.1 = k
    · rw [if_pos hk]
      unfold dictGet
      rw [if_pos rfl]
    · rw [if_neg hk]
      unfold dictGet
      rw [if_neg hk]
      exact ih

theorem dictGet_dictSet_ne {β : Type} (l : List (String × β)) (k k2 : String)
    (v : β) (h : k ≠ k2) : dictGet (dictSet l k v) k2 = dictGet l k2 := by
  induction l with
  | nil =>
    unfold dictSet
    rw [dictGet_cons, if_neg h, dictGet_nil]
  | cons kv rest ih =>
    unfold dictSet
    by_cases hk : kv.1 = k
    · rw [if_pos hk]
      rw [dictGet_cons, dictGet_cons]
      rw [if_neg h]
      rw [if_neg (show ¬ kv.1 = k2 from by rw [hk]; exact h)]
    · rw [if_neg hk]
      rw [dictGet_cons, dictGet_cons]
      by_cases hk2 : kv.1 = k2
      · rw [if_pos hk2, if_pos hk2]
      · rw [if_neg hk2, if_neg hk2]
        exact ih

theorem dictGet_not_mem_none {β : Type} (l : List (String × β)) (k : String)
    (h : ∀ kv ∈ l, kv.1 ≠ k) : dictGet l k = none := by
  induction l with
  | nil => rfl
  | cons kv rest ih =>
    rw [dictGet_cons]
    rw [if_neg (h kv (by simp))]
    exact ih (fun kv2 h2 => h kv2 (by simp [h2]))

/-- After the `train`/`val`/`test` loop of `load_datasets`, the dict
holds the glob-resolved list for each of those keys present among the
entry's items, and is otherwise unchanged. -/
theorem dictGet_fold_items {V : Type} (fs : FS) (cfg : Config V)
    (items : List (String × List String)) (d : Dataset V) (k : String)
    (hnd : (items.map Prod.fst).Nodup) :
    dictGet ((items.foldl (fun d iv =>
        if iv.1 = "train" ∨ iv.1 = "val" ∨ iv.1 = "test" then
          d.setitem iv.1 (DVal.vpaths (collect_sets fs cfg iv.2))
        else d) d)._args) k =
      if k = "train" ∨ k = "val" ∨ k = "test" then
        match dictGet items k with
        | some ps => some (DVal.vpaths (collect_sets fs cfg ps))
        | none => dictGet d._args k
      else dictGet d._args k := by
  induction items generalizing d with
  | nil =>
    simp only [List.foldl_nil]
    by_cases hk : k = "train" ∨ k = "val" ∨ k = "test"
    · rw [if_pos hk]
      rfl
    · rw [if_neg hk]
  | cons iv rest ih =>
    simp only [List.foldl_cons]
    simp only [List.map_cons, List.nodup_cons] at hnd
    obtain ⟨hhead, hrest⟩ := hnd
    by_cases hiv : iv.1 = "train" ∨ iv.1 = "val" ∨ iv.1 = "test"
    · rw [if_pos hiv]
      rw [ih (d.setitem iv.1 (DVal.vpaths (collect_sets fs cfg iv.2))) hrest]
      by_cases hk : k = "train" ∨ k = "val" ∨ k = "test"
      · rw [if_pos hk, if_pos hk]
        by_cases hkiv : iv.1 = k
        · rw [dictGet_cons, if_pos hkiv]
          rw [show dictGet rest k = none from
            dictGet_not_mem_none rest k (fun kv2 hkv2 hc => hhead (by
              rw [hkiv, ← hc]
              exact List.mem_map_of_mem Prod.fst hkv2))]
          show dictGet (dictSet d._args iv.1 _) k = _
          rw [hkiv]
          rw [dictGet_dictSet_self]
        · rw [dictGet_cons, if_neg hkiv]
          cases hdg : dictGet rest k with
          | some ps => rfl
          | none =>
            show dictGet (dictSet d._args iv.1 _) k = dictGet d._args k
            exact dictGet_dictSet_ne _ _ _ _
              (show iv.1 ≠ k from hkiv)
      · rw [if_neg hk, if_neg hk]
        show dictGet (dictSet d._args iv.1 _) k = dictGet d._args k
        exact dictGet_dictSet_ne _ _ _ _
          (show iv.1 ≠ k from fun hc => hk (hc ▸ hiv))
    · rw [if_neg hiv]
      rw [ih d hrest]
      by_cases hk : k = "train" ∨ k = "val" ∨ k = "test"
      · rw [if_pos hk, if_pos hk]
        rw [dictGet_cons,
          if_neg (show ¬ iv.1 = k from fun hc => hiv (hc ▸ hk))]
      · rw [if_neg hk, if_neg hk]

/-- After the `param` loop of `load_datasets`, the dict holds each pair
of the `param` object as an attribute, and is otherwise unchanged. -/
theorem dictGet_fold_param {V : Type} (pd : List (String × V))
    (d : Dataset V) (k : String) (hnd : (pd.map Prod.fst).Nodup) :
    dictGet ((pd.foldl (fun d kv =>
        d.setitem kv.1 (DVal.vjson kv.2)) d)._args) k =
      match dictGet pd k with
      | some v => some (DVal.vjson v)
      | none => dictGet d._args k := by
  induction pd generalizing d with
  | nil =>
    simp only [List.foldl_nil]
    rfl
  | cons kv rest ih =>
    simp only [List.foldl_cons]
    simp only [List.map_cons, List.nodup_cons] at hnd
    obtain ⟨hhead, hrest⟩ := hnd
    rw [ih (d.setitem kv.1 (DVal.vjson kv.2)) hrest]
    by_cases hkkv : kv.1 = k
    · rw [dictGet_cons, if_pos hkkv]
      rw [show dictGet rest k = none from
        dictGet_not_mem_none rest k (fun kv2 hkv2 hc => hhead (by
          rw [hkkv, ← hc]
          exact List.mem_map_of_mem Prod.fst hkv2))]
      show dictGet (dictSet d._args kv.1 _) k = _
      rw [hkkv]
      rw [dictGet_dictSet_self]
    · rw [dictGet_cons, if_neg hkkv]
      cases hdg : dictGet rest k with
      | some v => rfl
      | none =>
        show dictGet (dictSet d._args kv.1 _) k = dictGet d._args k
        exact dictGet_dictSet_ne _ _ _ _ (show kv.1 ≠ k from hkkv)

theorem foldl_append_flatMap {α β : Type} (g : α → List β) (l : List α)
    (init : List β) :
    l.foldl (fun acc a => acc ++ g a) init = init ++ l.flatMap g := by
  induction l generalizing init with
  | nil => simp
  | cons a tl ih => simp [ih, List.flatMap_cons, List.append_assoc]

/-- C7: each pattern `j` under a `train`/`val`/`test` key contributes, in
order, the glob matches of the "Path" table entry for `j` when `j` is a
key there, and of `j` itself when the lookup raises `KeyError`. -/
theorem load_datasets_pattern_fallback (V : Type) (fs : FS) (cfg : Config V)
    (pats : List String) :
    collect_sets fs cfg pats = pats.flatMap (fun j =>
      match dictGet cfg.path j with
      | some pathStr => _glob_absolute_pattern fs (fs.toPath pathStr)
      | none => _glob_absolute_pattern fs (fs.toPath j)) := by
  unfold collect_sets
  have hfn : (fun (sets : List (List String)) (j : String) =>
      match dictGet cfg.path j with
      | some pathStr => sets ++ _glob_absolute_pattern fs (fs.toPath pathStr)
      | none => sets ++ _glob_absolute_pattern fs (fs.toPath j)) =
      (fun sets j => sets ++ (match dictGet cfg.path j with
        | some pathStr => _glob_absolute_pattern fs (fs.toPath pathStr)
        | none => _glob_absolute_pattern fs (fs.toPath j))) := by
    funext sets j
    cases hdj : dictGet cfg.path j
    · rfl
    · rfl
  rw [hfn, foldl_append_flatMap]
  rw [List.nil_append]

/-- C10: `Dataset` attribute lookup through `__getattr__` returns a
stored value unchanged; an unstored `train`, `val` or `test` raises
`ValueError(f"un{item}able")`; any other unstored name yields `None`. -/
theorem dataset_getattr_spec (V : Type) (d : Dataset V) (item : String) :
    (∀ v, dictGet d._args item = some v →
      d.getattr item = Except.ok (some v)) ∧
    (dictGet d._args item = none →
      ((item = "train" ∨ item = "val" ∨ item = "test") →
        d.getattr item = Except.error ("un" ++ item ++ "able")) ∧
      (¬(item = "train" ∨ item = "val" ∨ item = "test") →
        d.getattr item = Except.ok none)) := by
  unfold Dataset.getattr
  refine ⟨?_, ?_⟩
  · intro v hv
    rw [hv]
  · intro hnone
    rw [hnone]
    refine ⟨fun h3 => ?_, fun h3 => ?_⟩
    · dsimp only
      rw [if_pos h3]
    · dsimp only
      rw [if_neg h3]

/-- Witness for C10: with only `train` stored, `val` raises `unvalable`,
`other` yields `None`, and `train` returns the stored value. -/
theorem dataset_getattr_spec_witness :
    Dataset.getattr (⟨[("train", DVal.vint 1)]⟩ : Dataset Unit) "val" =
        Except.error "unvalable" ∧
      Dataset.getattr (⟨[("train", DVal.vint 1)]⟩ : Dataset Unit) "other" =
        Except.ok none ∧
      Dataset.getattr (⟨[("train", DVal.vint 1)]⟩ : Dataset Unit) "train" =
        Except.ok (some (DVal.vint 1)) := by
  refine ⟨?_, ?_, ?_⟩
  · exact ((dataset_getattr_spec Unit ⟨[("train", DVal.vint 1)]⟩ "val").2
      (by rfl)).1 (Or.inr (Or.inl rfl))
  · exact ((dataset_getattr_spec Unit ⟨[("train", DVal.vint 1)]⟩ "other").2
      (by rfl)).2 (by decide)
  · exact (dataset_getattr_spec Unit ⟨[("train", DVal.vint 1)]⟩ "train").1
      (DVal.vint 1) (by rfl)

/-- C2: `load_datasets` maps each named entry of the "Dataset" object to
a `Dataset` whose `train`/`val`/`test` attributes are exactly the
glob-resolved sample lists of the keys present in the entry (an absent
one raises, per `__getattr__`), other item keys being ignored, and whose
attributes include every `param` pair.  The dict-key uniqueness of JSON
objects is the `Nodup` hypotheses; `param` keys do not collide with the
three sample keys. -/
theorem load_datasets_builds (V : Type) (fs : FS) (cfg : Config V)
    (i : Nat) (name : String) (e : DSEntry V)
    (hie : cfg.dataset[i]? = some (name, e))
    (hkeys : (e.items.map Prod.fst).Nodup)
    (hparam : ∀ pd, e.param = some pd →
      (pd.map Prod.fst).Nodup ∧
        ∀ kv ∈ pd, kv.1 ≠ "train" ∧ kv.1 ≠ "val" ∧ kv.1 ≠ "test") :
    ∃ d : Dataset V,
      (load_datasets fs cfg)[i]? = some (name, d) ∧
      (∀ k ps, (k = "train" ∨ k = "val" ∨ k = "test") →
        dictGet e.items k = some ps →
        d.getattr k =
          Except.ok (some (DVal.vpaths (collect_sets fs cfg ps)))) ∧
      (∀ k, (k = "train" ∨ k = "val" ∨ k = "test") →
        dictGet e.items k = none →
        d.getattr k = Except.error ("un" ++ k ++ "able")) ∧
      (∀ pd k v, e.param = some pd → dictGet pd k = some v →
        d.getattr k = Except.ok (some (DVal.vjson v))) := by
  refine ⟨build_dataset fs cfg e, ?_, ?_, ?_, ?_⟩
  · unfold load_datasets
    rw [List.getElem?_map, hie]
    rfl
  · intro k ps hk hps
    have hval : dictGet (build_dataset fs cfg e)._args k =
        some (DVal.vpaths (collect_sets fs cfg ps)) := by
      unfold build_dataset
      dsimp only
      cases hpd : e.param with
      | none =>
        rw [dictGet_fold_items fs cfg e.items _ k hkeys, if_pos hk, hps]
      | some pd =>
        rw [dictGet_fold_param pd _ k (hparam pd hpd).1]
        rw [show dictGet pd k = none from
          dictGet_not_mem_none pd k (fun kv hkv hc => by
            have h3 := (hparam pd hpd).2 kv hkv
            rcases hk with rfl | rfl | rfl
            · exact h3.1 hc
            · exact h3.2.1 hc
            · exact h3.2.2 hc)]
        rw [dictGet_fold_items fs cfg e.items _ k hkeys, if_pos hk, hps]
    unfold Dataset.getattr
    rw [hval]
  · intro k hk hmiss
    have hval : dictGet (build_dataset fs cfg e)._args k = none := by
      unfold build_dataset
      dsimp only
      have hinit : dictGet (Dataset.init
          ([] : List (String × DVal V)))._args k = none := by
        rcases hk with rfl | rfl | rfl <;> rfl
      cases hpd : e.param with
      | none =>
        rw [dictGet_fold_items fs cfg e.items _ k hkeys, if_pos hk, hmiss]
        exact hinit
      | some pd =>
        rw [dictGet_fold_param pd _ k (hparam pd hpd).1]
        rw [show dictGet pd k = none from
          dictGet_not_mem_none pd k (fun kv hkv hc => by
            have h3 := (hparam pd hpd).2 kv hkv
            rcases hk with rfl | rfl | rfl
            · exact h3.1 hc
            · exact h3.2.1 hc
            · exact h3.2.2 hc)]
        rw [dictGet_fold_items fs cfg e.items _ k hkeys, if_pos hk, hmiss]
        exact hinit
    unfold Dataset.getattr
    rw [hval]
    dsimp only
    rw [if_pos hk]
  · intro pd k v hpd hget
    have hval : dictGet (build_dataset fs cfg e)._args k =
        some (DVal.vjson v) := by
      unfold build_dataset
      dsimp only
      rw [hpd]
      dsimp only
      rw [dictGet_fold_param pd _ k (hparam pd hpd).1, hget]
    unfold Dataset.getattr
    rw [hval]

/-- Witness for C2: a one-entry config whose `train` key holds the
pattern name `x`, resolved through the "Path" table to `lr` and globbed
under the root. -/
theorem load_datasets_builds_witness :
    ∃ d : Dataset Unit,
      (load_datasets
        ⟨fun p => decide (p = []), fun p => [p],
          fun base rel => [base ++ rel], fun s => [s]⟩
        ⟨[("x", "lr")],
          [("s", ⟨[("train", ["x"]), ("note", ["y"])],
            some [("p1", ())]⟩)]⟩)[0]? = some ("s", d) ∧
      d.getattr "train" = Except.ok (some (DVal.vpaths [["lr"]])) ∧
      d.getattr "p1" = Except.ok (some (DVal.vjson ())) := by
  obtain ⟨d, hd, h1, h2, h3⟩ := load_datasets_builds Unit
    ⟨fun p => decide (p = []), fun p => [p],
      fun base rel => [base ++ rel], fun s => [s]⟩
    ⟨[("x", "lr")],
      [("s", ⟨[("train", ["x"]), ("note", ["y"])], some [("p1", ())]⟩)]⟩
    0 "s" ⟨[("train", ["x"]), ("note", ["y"])], some [("p1", ())]⟩
    (by rfl) (by decide)
    (fun pd hpd => by
      cases hpd
      exact ⟨by decide, by decide⟩)
  refine ⟨d, hd, ?_, ?_⟩
  · have h := h1 "train" ["x"] (Or.inl rfl) (by rfl)
    exact h
  · exact h3 [("p1", ())] "p1" () rfl (by rfl)

end VSR

